import Mathlib

/-!
Verification of the worker-pool image-conversion dispatcher of the
pubby-club/emojis repository (`build_webp.mjs`, `convert/index.mjs`,
`convert/worker.mjs`).

The main thread of `build_webp.mjs` is a Node event loop: all main-thread
handlers (`worker.on("message", ...)`, the `next` closures) run serialized,
while each worker thread converts its current file concurrently.  We embed
the main-thread state as `DState` and model a run as the fold of a
*schedule* — the list of worker indices whose completion message is handled
next — over the initial state produced by the `fork()` loop.  The schedule
is the only source of nondeterminism; every interleaving of worker
completions is some schedule, and every prefix of a run is itself a run.

Machine integers do not occur on any path the claims touch; counters are
plain `Nat`.  File names coming from `readdir` are slash-free strings.
-/

namespace Emojis

/-! ## Models of the node:path helpers, for slash-free file names -/

/-- Model of `path.join(dir, name)` for a directory without trailing slash
and a plain relative file name (normalization of `.` segments is identity
on the names the claims touch, and cancels in all comparisons below). -/
def pjoin (dir name : String) : String := dir ++ "/" ++ name

/-- Model of the JS `String.prototype.endsWith` (suffix test), written
over the character lists so that statements evaluate by kernel
reduction. -/
def jsEndsWith (s t : String) : Bool := t.data.isSuffixOf s.data

/-- String length in characters. -/
def strLength (s : String) : Nat := s.data.length

/-- Remove the last `n` characters of a string. -/
def strDropRight (s : String) (n : Nat) : String :=
  ⟨s.data.take (s.data.length - n)⟩

/-- Model of `path.basename(name, ext)` for slash-free `name`: the suffix
`ext` is stripped when present, except that Node does not strip when the
whole name equals `ext` (e.g. `basename(".svg", ".svg") = ".svg"`). -/
def nodeBasename (name ext : String) : String :=
  if jsEndsWith name ext ∧ name ≠ ext then strDropRight name (strLength ext)
  else name

/-! ## build_webp.mjs : input filter and configuration (main thread) -/

/-- `isSvgFile` (build_webp.mjs line 36): `typeof file === "string" &&
file.endsWith(".svg")`; the `typeof` conjunct is always true for strings. -/
def isSvgFile (file : String) : Bool := jsEndsWith file ".svg"

/-- `inputFiles` (line 75): the directory listing filtered by `isSvgFile`. -/
def inputFilesOf (listing : List String) : List String :=
  listing.filter isSvgFile

/-- The environment variables read by build_webp.mjs (lines 43-47, 67). -/
structure Env where
  INPUT_DIR : Option String
  OUTPUT_FORMAT : Option String
  OUTPUT_DIR : Option String
  OUTPUT_EXT : Option String
  OUTPUT_SIZE : Option String
  OUTPUT_OPTIONS : Option String
deriving Repr, DecidableEq

/-- The all-unset environment. -/
def envDefault : Env := ⟨none, none, none, none, none, none⟩

/-- Remove the first occurrence of `pat` from a character list. -/
def removeFirst (pat : List Char) : List Char → List Char
  | [] => []
  | c :: rest =>
    if pat.isPrefixOf (c :: rest) then (c :: rest).drop pat.length
    else c :: removeFirst pat rest

/-- Model of the JS `s.replace(pat, "")` with a string pattern: only the
first occurrence is removed (used at lines 44 and 46 with pattern "."). -/
def replaceFirst (s pat : String) : String := ⟨removeFirst pat.data s.data⟩

/-- ASCII whitespace, for the leading/trailing trim `Number` performs. -/
def isWsChar (c : Char) : Bool := c = ' ' ∨ c = '\t' ∨ c = '\n' ∨ c = '\r'

/-- Trim whitespace from both ends of a character list. -/
def trimChars (l : List Char) : List Char :=
  ((l.dropWhile isWsChar).reverse.dropWhile isWsChar).reverse

/-- The numeric value of a nonempty all-digit character list, else
`none`. -/
def digitsVal (l : List Char) : Option Nat :=
  if l.isEmpty then none
  else
    l.foldl
      (fun acc c =>
        match acc with
        | none => none
        | some n =>
          if 48 ≤ c.toNat ∧ c.toNat ≤ 57 then some (n * 10 + (c.toNat - 48))
          else none)
      (some 0)

/-- Model of the JS `Number(s)` coercion on the cases that occur here: a
whitespace-only string coerces to 0, an optionally signed integer literal
to its value, and anything non-numeric to NaN, modelled as `none` (float,
hex and exponent literals are out of scope — no claim touches them).
`Number` never throws — totality of this function reflects that. -/
def jsNumber (s : String) : Option Int :=
  match trimChars s.data with
  | [] => some 0
  | '-' :: rest => (digitsVal rest).map (fun n => -(n : Int))
  | '+' :: rest => (digitsVal rest).map (fun n => (n : Int))
  | t => (digitsVal t).map (fun n => (n : Int))

/-- The `options` record passed to every worker (lines 57-65).
`outputSize = none` models NaN.  Encoder options are an assoc list whose
contents no claim inspects. -/
structure Config where
  inputDir : String
  outputFormat : String
  outputDir : String
  outputExt : String
  outputSize : Option Int
  outputOptions : List (String × String)
deriving Repr, DecidableEq

/-- The literal `outputOptions` defaults of lines 50-55. -/
def defaultOutputOptions : List (String × String) :=
  [("effort", "5"), ("nearLossless", "true"), ("quality", "90"),
   ("smartSubsample", "true")]

/-- Model of `Object.assign(base, upd)`: keys of `upd` override `base`. -/
def objectAssign (base upd : List (String × String)) : List (String × String) :=
  base.filter (fun kv => upd.all (fun kv2 => kv2.1 ≠ kv.1)) ++ upd

/-- The configuration phase of the main thread (lines 43-73), up to but not
including `readdir`.  `jsonParse` abstracts `JSON.parse`, returning `none`
where JSON.parse would throw.  Note that `OUTPUT_SIZE` is only passed
through `Number` (line 47) — no validation, no failure — while a malformed
`OUTPUT_OPTIONS` payload throws (lines 67-73), modelled as `.error`. -/
def parseConfig (jsonParse : String → Option (List (String × String)))
    (env : Env) : Except String Config :=
  let fmt := replaceFirst (env.OUTPUT_FORMAT.getD "webp") "."
  let cfg : Config :=
    { inputDir := env.INPUT_DIR.getD "./svg"
      outputFormat := fmt
      outputDir := env.OUTPUT_DIR.getD ("./" ++ fmt)
      outputExt := replaceFirst (env.OUTPUT_EXT.getD fmt) "."
      outputSize := jsNumber (env.OUTPUT_SIZE.getD "32")
      outputOptions := defaultOutputOptions }
  match env.OUTPUT_OPTIONS with
  | none => .ok cfg
  | some s =>
    match jsonParse s with
    | some j => .ok { cfg with outputOptions := objectAssign defaultOutputOptions j }
    | none => .error "Invalid output options"

/-- `const cores = os.cpus().length` (line 41): the reported CPU count is
used as-is — there is no minimum-1 clamp in the code. -/
def cores (cpus : Nat) : Nat := cpus

/-- Number of workers the main thread spawns for a given environment:
`Array.from({length: cores}, fork)` runs only if the configuration phase
did not throw (the throw at line 71 happens before the fork loop at 149). -/
def mainWorkers (jsonParse : String → Option (List (String × String)))
    (env : Env) (cpus : Nat) : Nat :=
  match parseConfig jsonParse env with
  | .ok _ => cores cpus
  | .error _ => 0

/-! ## build_webp.mjs : worker thread (lines 152-188) -/

/-- Errors carried by a rejected conversion (sharp rejects with an Error
object, always truthy). -/
abbrev ErrInfo := String

/-- The sharp `OutputInfo` payload; no claim inspects its fields. -/
abbrev OutInfo := Nat

/-- The message a worker posts back (lines 179-187): on success the spread
`{ ...args, info }` carries the input and output paths; on failure only
`{ err }` is posted — the catch handler drops `args`. -/
inductive Msg where
  | res (input output : String) (info : OutInfo)
  | fail (err : ErrInfo)
deriving Repr, DecidableEq

/-- The worker-side message handler: `convert(args)` either resolves with
`info` or rejects, and both continuations post a message — the handler is
total, no exception escapes the worker loop. `conv` abstracts the sharp
resize-and-encode pipeline (lines 165-177). -/
def workerHandle (conv : String → String → Except ErrInfo OutInfo)
    (input output : String) : Msg :=
  match conv input output with
  | .ok info => .res input output info
  | .error e => .fail e

/-- The WorkItem reference carried by a posted message, if any. -/
def itemRef : Msg → Option String
  | .res input _ _ => some input
  | .fail _ => none

/-- Whether a message is a success message (`progress` checks `if (err)`,
and `err` is absent exactly on `res` messages). -/
def isOkMsg : Msg → Bool
  | .res _ _ _ => true
  | .fail _ => false

/-! ## build_webp.mjs : main-thread dispatcher state machine -/

/-- Status of one spawned worker as seen by the main thread.  `fresh` is a
just-created worker whose first `next()` has not run yet; `busy f k` holds
the file it is converting and (ghost) the index of that claim in the claim
history; `dead` is a terminated worker. -/
inductive WStatus where
  | fresh
  | busy (file : String) (k : Nat)
  | dead
deriving Repr, DecidableEq

/-- Ghost event log entry: a claim handed to worker `w`, a result recorded
from worker `w` (one `progress` render), or termination of worker `w`. -/
inductive Ev where
  | claim (w : Nat) (file : String)
  | record (w : Nat) (file : String)
  | die (w : Nat)
deriving Repr, DecidableEq

/-- The worker index an event belongs to. -/
def evWorker : Ev → Nat
  | .claim w _ => w
  | .record w _ => w
  | .die w => w

/-- Whether an event is a record (= one `progress` call). -/
def isRecordEv : Ev → Bool
  | .record _ _ => true
  | _ => false

/-- One recorded result: the message `progress` received, plus ghost data
naming the claim it was produced for (claim index and file name). -/
structure RecEntry where
  idx : Nat
  file : String
  msg : Msg
deriving Repr, DecidableEq

/-- The main-thread state of one dispatcher run.  `queue` is the shared
`inputFiles` array, `workers` the `cores`-many spawned workers, and
`success`, `failed`, `errors` the aggregate of `progress` (lines 83-87).
`records`, `claims` and `trace` are ghost history: results in `progress`
order, claims in `shift()` order, and the full event log. -/
structure DState where
  queue : List String
  workers : List WStatus
  success : Nat
  failed : Nat
  errors : List ErrInfo
  records : List RecEntry
  claims : List (Nat × String)
  trace : List Ev
deriving Repr, DecidableEq

/-- Whether a worker status is busy. -/
def isBusyW : WStatus → Bool
  | .busy _ _ => true
  | _ => false

/-- Number of busy workers. -/
def countBusy (ws : List WStatus) : Nat := ws.countP isBusyW

/-- The body of `next()` after a successful `shift()`: `if (filename)`
posts the claim to worker `w`; a falsy (empty-string) name instead runs
`worker.terminate()` with the item silently dropped. -/
def nextClaim (w : Nat) (f : String) (rest : List String) (s : DState) : DState :=
  if f = "" then
    { s with queue := rest
             workers := s.workers.set w .dead
             trace := s.trace ++ [.die w] }
  else
    { s with queue := rest
             workers := s.workers.set w (.busy f s.claims.length)
             claims := s.claims ++ [(w, f)]
             trace := s.trace ++ [.claim w f] }

/-- The `next()` closure of `fork()` (lines 118-135) run for worker `w`:
`inputFiles.shift()` removes the head of the shared queue; on `undefined`
(empty queue) `worker.terminate()` is called, otherwise `nextClaim`. -/
def nextStep (w : Nat) (s : DState) : DState :=
  match s.queue with
  | [] =>
    { s with workers := s.workers.set w .dead
             trace := s.trace ++ [.die w] }
  | f :: rest => nextClaim w f rest s

/-- The `progress` handler (lines 92-110) applied to the message of worker
`w` that was busy on claim `(k, f)`: `if (err)` increments `failed` and
pushes the error, otherwise increments `success`; each call renders the
progress report once. -/
def progressStep (w k : Nat) (f : String) (m : Msg) (s : DState) : DState :=
  { s with success := s.success + (if isOkMsg m then 1 else 0)
           failed := s.failed + (if isOkMsg m then 0 else 1)
           errors := s.errors ++ (match m with | .fail e => [e] | _ => [])
           records := s.records ++ [⟨k, f, m⟩]
           trace := s.trace ++ [.record w f] }

/-- The input path posted for a claimed file (line 122). -/
def inPath (cfg : Config) (f : String) : String := pjoin cfg.inputDir f

/-- The output path posted for a claimed file (lines 123-126):
`join(outputDir, basename(filename, ".svg") + "." + outputExt)`. -/
def outPath (cfg : Config) (f : String) : String :=
  pjoin cfg.outputDir (nodeBasename f ".svg" ++ "." ++ cfg.outputExt)

/-- Handling of one worker-completion message on the main thread
(`worker.on("message", ...)`, lines 137-140): if worker `w` is busy, its
conversion result is computed by the worker-side handler, `progress` runs,
then `next()` runs for that worker.  A schedule entry naming a non-busy
worker is a no-op (such a worker posts no message). -/
def step (conv : String → String → Except ErrInfo OutInfo) (cfg : Config)
    (s : DState) (w : Nat) : DState :=
  match s.workers[w]? with
  | some (WStatus.busy f k) =>
    nextStep w (progressStep w k f (workerHandle conv (inPath cfg f) (outPath cfg f)) s)
  | _ => s

/-- The state before the fork loop: the queue pre-loaded with the filtered
listing, `cores`-many fresh workers, zeroed aggregate. -/
def mkInit (numWorkers : Nat) (files : List String) : DState :=
  { queue := files
    workers := List.replicate numWorkers .fresh
    success := 0
    failed := 0
    errors := []
    records := []
    claims := []
    trace := [] }

/-- The fork loop (line 149): each `fork()` creates a worker and
synchronously runs its first `next()`; no completion message can be
handled in between because the `Array.from` loop never yields. -/
def spawnAll : List Nat → DState → DState
  | [], s => s
  | w :: ws, s => spawnAll ws (nextStep w s)

/-- The state right after the fork loop. -/
def initState (numWorkers : Nat) (files : List String) : DState :=
  spawnAll (List.range numWorkers) (mkInit numWorkers files)

/-- A whole run: the initial fork loop followed by handling worker
completions in schedule order. -/
def run (conv : String → String → Except ErrInfo OutInfo) (cfg : Config)
    (numWorkers : Nat) (files : List String) (sched : List Nat) : DState :=
  sched.foldl (step conv cfg) (initState numWorkers files)

/-- All spawned workers have exited; `Promise.all` at line 149 resolves
exactly in such states (each fork promise resolves on worker exit). -/
def allDead (s : DState) : Prop := ∀ st ∈ s.workers, st = WStatus.dead

instance (s : DState) : Decidable (allDead s) := by
  unfold allDead; infer_instance

/-- The subtrace of events belonging to worker `w`. -/
def wtrace (t : List Ev) (w : Nat) : List Ev :=
  t.filter (fun e => evWorker e = w)

/-- The alternating claim/record trace of a worker that fully processed
the files `done`, in order. -/
def pairTrace (w : Nat) : List String → List Ev
  | [] => []
  | f :: fs => .claim w f :: .record w f :: pairTrace w fs

/-- The causal shape of one worker's event log: a claim/record alternation
starting with a claim, followed by nothing (still busy on no item — the
fresh or out-of-range case), by a trailing unanswered claim (busy), or by
its termination event. -/
def AltShape (w : Nat) (t : List Ev) : Prop :=
  (∃ done, t = pairTrace w done) ∨
  (∃ done f, t = pairTrace w done ++ [Ev.claim w f]) ∨
  (∃ done, t = pairTrace w done ++ [Ev.die w])

/-! ## Spec-side mapping rule (for the refinement comparison of C6) -/

/-- Modelled from the spec words for the output-path mapping rule: "same
base name, target extension, target directory" / "the input's base name
with the input extension removed and the configured target extension
appended". -/
def specOutputPath (cfg : Config) (f : String) : String :=
  pjoin cfg.outputDir (strDropRight f (strLength ".svg") ++ "." ++ cfg.outputExt)

/-! ## The PNG pipeline : convert/index.mjs and its worker (part_001) -/

/-- The PNG worker's exec callback (part_001 lines 9-15):
`(err) => parentPort.postMessage(true)` — the error argument is ignored
and the acknowledgement is the constant `true`. -/
def pngWorkerReply (_err : Option ErrInfo) : Bool := true

/-- Status of one PNG-pipeline worker. -/
inductive PW where
  | fresh
  | busy (file : String)
  | dead
deriving Repr, DecidableEq

/-- Main-side state of the PNG pipeline (convert/index.mjs): the shared
`files` array (popped from the END), the workers, and the ghost dispatch
order.  Nothing in the state records per-item outcomes — the pipeline has
no aggregate beyond the `Remaining` count derived from `files.length`. -/
structure PState where
  files : List String
  workers : List PW
  dispatched : List String
deriving Repr, DecidableEq

/-- The body of the PNG pipeline `next` after a successful `pop()`:
`if (file)` posts it to the worker, else terminates the worker. -/
def pngClaim (w : Nat) (f : String) (s : PState) : PState :=
  if f = "" then
    { s with files := s.files.dropLast, workers := s.workers.set w .dead }
  else
    { s with files := s.files.dropLast
             workers := s.workers.set w (.busy f)
             dispatched := s.dispatched ++ [f] }

/-- The `next` closure (convert/index.mjs lines 25-34): `files.pop()`
takes the LAST element; a truthy file is posted to the worker, otherwise
(`undefined` on empty) the worker is terminated. -/
def pngNext (w : Nat) (s : PState) : PState :=
  match s.files.getLast? with
  | some f => pngClaim w f s
  | none => { s with workers := s.workers.set w .dead }

/-- The main-side message handler (line 36): `worker.on("message", next)`
— the message content is ignored entirely. -/
def pngOnMessage (_msg : Bool) (w : Nat) (s : PState) : PState := pngNext w s

/-- Handling one PNG worker completion: the worker runs `convert` via
`exec`, whose outcome is `outcome f` (an error or not); the callback posts
`pngWorkerReply` of it, and the main thread handles that message. -/
def pngStep (outcome : String → Option ErrInfo) (s : PState) (w : Nat) : PState :=
  match s.workers[w]? with
  | some (.busy f) => pngOnMessage (pngWorkerReply (outcome f)) w s
  | _ => s

/-- The PNG pipeline state before the spawn loop. -/
def pngMkInit (numWorkers : Nat) (files : List String) : PState :=
  { files := files
    workers := List.replicate numWorkers .fresh
    dispatched := [] }

/-- The spawn loop of convert/index.mjs (lines 20-38). -/
def pngSpawnAll : List Nat → PState → PState
  | [], s => s
  | w :: ws, s => pngSpawnAll ws (pngNext w s)

/-- A whole PNG-pipeline run over a completion schedule. -/
def pngRun (outcome : String → Option ErrInfo) (numWorkers : Nat)
    (files : List String) (sched : List Nat) : PState :=
  sched.foldl (pngStep outcome) (pngSpawnAll (List.range numWorkers) (pngMkInit numWorkers files))

/-- All PNG workers have exited. -/
def pngAllDead (s : PState) : Prop := ∀ st ∈ s.workers, st = PW.dead

instance (s : PState) : Decidable (pngAllDead s) := by
  unfold pngAllDead; infer_instance

/-! ## Concrete instances used in examples and witnesses -/

/-- A conversion routine that succeeds on every input. -/
def convOk : String → String → Except ErrInfo OutInfo := fun _ _ => .ok 0

/-- A conversion routine that fails on every input. -/
def convBad : String → String → Except ErrInfo OutInfo :=
  fun _ _ => .error "boom"

/-- A conversion routine that fails exactly on the input path `bad`. -/
def convBadOn (bad : String) : String → String → Except ErrInfo OutInfo :=
  fun input _ => if input = bad then .error "boom" else .ok 0

/-- The configuration produced by an all-default environment. -/
def cfgEx : Config :=
  { inputDir := "./svg"
    outputFormat := "webp"
    outputDir := "./webp"
    outputExt := "webp"
    outputSize := some 32
    outputOptions := defaultOutputOptions }

/-- A JSON parser stub on which every payload is malformed. -/
def jsonNone : String → Option (List (String × String)) := fun _ => none

/-- An environment whose `OUTPUT_SIZE` is not a number. -/
def envBadSize : Env := ⟨none, none, none, none, some "abc", none⟩

/-- An exec outcome with no error, for the PNG pipeline. -/
def oNone : String → Option ErrInfo := fun _ => none

/-- An exec outcome that fails on every file, for the PNG pipeline. -/
def oFail : String → Option ErrInfo := fun _ => some "convert failed"

/-! ## The dispatcher invariant -/

/-- The causal shape of worker `w`'s event sublog `tw`, by `w`'s current
status: a fresh (or out-of-range) worker has no events; a busy worker's
log is an alternation of answered claims ending in the unanswered claim of
its current file; a dead worker's log is an alternation closed by `die`. -/
def shapeFor (w : Nat) (tw : List Ev) : Option WStatus → Prop
  | some .fresh => tw = []
  | some (.busy f _) => ∃ done, tw = pairTrace w done ++ [Ev.claim w f]
  | some .dead => ∃ done, tw = pairTrace w done ++ [Ev.die w]
  | none => tw = []

/-- Worker `w`'s event sublog has the causal shape of its status. -/
def TraceShapeAt (s : DState) (w : Nat) : Prop :=
  shapeFor w (wtrace s.trace w) s.workers[w]?

/-- The inductive invariant of the dispatcher main loop, relative to the
initial file list `files`. -/
structure Inv (conv : String → String → Except ErrInfo OutInfo) (cfg : Config)
    (numWorkers : Nat) (files : List String) (s : DState) : Prop where
  wlen : s.workers.length = numWorkers
  split : files = s.claims.map Prod.snd ++ s.queue
  counts : s.success + s.failed = s.records.length
  balance : s.records.length + countBusy s.workers = s.claims.length
  claimIdx : ∀ (w : Nat) (f : String) (k : Nat), s.workers[w]? = some (WStatus.busy f k) →
    s.claims[k]? = some (w, f)
  recIdx : ∀ r ∈ s.records, ∃ w, s.claims[r.idx]? = some (w, r.file)
  recNodup : (s.records.map RecEntry.idx).Nodup
  busyNotRec : ∀ (w : Nat) (f : String) (k : Nat), s.workers[w]? = some (WStatus.busy f k) →
    k ∉ s.records.map RecEntry.idx
  idxLt : ∀ r ∈ s.records, r.idx < s.claims.length
  busyLt : ∀ (w : Nat) (f : String) (k : Nat), s.workers[w]? = some (WStatus.busy f k) → k < s.claims.length
  msgEq : ∀ r ∈ s.records,
    r.msg = workerHandle conv (inPath cfg r.file) (outPath cfg r.file)
  succCnt : s.success = s.records.countP (fun r => isOkMsg r.msg)
  failCnt : s.failed = s.records.countP (fun r => !(isOkMsg r.msg))
  deadQueue : (∃ st ∈ s.workers, st = WStatus.dead) → s.queue = []
  recEvCnt : (s.trace.filter isRecordEv).length = s.records.length
  traceShape : ∀ w, TraceShapeAt s w
  seq1 : s.workers.length = 1 →
    s.records.map RecEntry.idx = List.range s.records.length ∧
    ∀ (f : String) (k : Nat), s.workers[0]? = some (WStatus.busy f k) → k = s.records.length

/-- The inductive invariant of the PNG pipeline main loop, relative to the
initial file list `orig`: the dispatch history is the reversed prefix of
consumed files (items are popped from the tail), and a worker only ever
terminates on an exhausted list. -/
structure PInv (numWorkers : Nat) (orig : List String) (s : PState) : Prop where
  wlen : s.workers.length = numWorkers
  split : orig = s.files ++ s.dispatched.reverse
  deadFiles : (∃ st ∈ s.workers, st = PW.dead) → s.files = []

/-! ## List and trace bookkeeping lemmas -/

theorem string_append_cancel_left {a b c : String} (h : a ++ b = a ++ c) :
    b = c := by
  have hd := congrArg String.data h
  simp only [String.data_append] at hd
  exact String.ext (List.append_cancel_left hd)

theorem pjoin_inj (dir : String) {f g : String} (h : pjoin dir f = pjoin dir g) :
    f = g := by
  unfold pjoin at h
  rw [String.append_assoc, String.append_assoc] at h
  exact string_append_cancel_left (string_append_cancel_left h)

theorem countP_set {α : Type} (l : List α) (w : Nat) (a b : α) (p : α → Bool)
    (h : l[w]? = some a) :
    (l.set w b).countP p + (if p a then 1 else 0)
      = l.countP p + (if p b then 1 else 0) := by
  induction l generalizing w with
  | nil => simp at h
  | cons x xs ih =>
    cases w with
    | zero =>
      simp only [List.getElem?_cons_zero, Option.some_inj] at h
      subst h
      simp only [List.set_cons_zero, List.countP_cons]
      omega
    | succ n =>
      simp only [List.getElem?_cons_succ] at h
      simp only [List.set_cons_succ, List.countP_cons]
      have := ih n h
      omega

theorem countBusy_set (ws : List WStatus) (w : Nat) (a b : WStatus)
    (h : ws[w]? = some a) :
    countBusy (ws.set w b) + (if isBusyW a then 1 else 0)
      = countBusy ws + (if isBusyW b then 1 else 0) :=
  countP_set ws w a b isBusyW h

theorem countBusy_replicate_fresh (n : Nat) :
    countBusy (List.replicate n WStatus.fresh) = 0 := by
  unfold countBusy
  rw [List.countP_eq_zero]
  intro a ha
  rw [List.eq_of_mem_replicate ha]
  simp [isBusyW]

theorem countBusy_allDead {s : DState} (h : allDead s) :
    countBusy s.workers = 0 := by
  unfold countBusy
  rw [List.countP_eq_zero]
  intro a ha
  rw [h a ha]
  simp [isBusyW]

theorem wtrace_append (t u : List Ev) (w : Nat) :
    wtrace (t ++ u) w = wtrace t w ++ wtrace u w :=
  List.filter_append _ _

theorem wtrace_single_eq {e : Ev} {w : Nat} (h : evWorker e = w) :
    wtrace [e] w = [e] := by
  simp [wtrace, List.filter, h]

theorem wtrace_single_ne {e : Ev} {w : Nat} (h : evWorker e ≠ w) :
    wtrace [e] w = [] := by
  simp [wtrace, List.filter, h]

theorem pairTrace_concat (w : Nat) (l : List String) (f : String) :
    pairTrace w (l ++ [f])
      = pairTrace w l ++ [Ev.claim w f, Ev.record w f] := by
  induction l with
  | nil => rfl
  | cons x xs ih => simp [pairTrace, ih]

theorem nodup_getElem?_inj {α : Type} {l : List α} (h : l.Nodup) {i j : Nat}
    {x : α} (hi : l[i]? = some x) (hj : l[j]? = some x) : i = j := by
  rcases Nat.lt_trichotomy i j with hlt | heq | hgt
  · exfalso
    have hjl : j < l.length := (List.getElem?_eq_some_iff.mp hj).1
    exact (List.nodup_iff_getElem?_ne_getElem?.mp h i j hlt hjl) (hi.trans hj.symm)
  · exact heq
  · exfalso
    have hil : i < l.length := (List.getElem?_eq_some_iff.mp hi).1
    exact (List.nodup_iff_getElem?_ne_getElem?.mp h j i hgt hil) (hj.trans hi.symm)

/-! ## Reduction lemmas for the step functions -/

theorem nextStep_nil {w : Nat} {s : DState} (hq : s.queue = []) :
    nextStep w s
      = { s with workers := s.workers.set w .dead
                 trace := s.trace ++ [.die w] } := by
  unfold nextStep; rw [hq]

theorem nextStep_queue_cons {w : Nat} {s : DState} {f0 : String}
    {rest : List String} (hq : s.queue = f0 :: rest) :
    nextStep w s = nextClaim w f0 rest s := by
  unfold nextStep; rw [hq]

theorem nextStep_cons_bad {w : Nat} {s : DState} {rest : List String}
    (hq : s.queue = "" :: rest) :
    nextStep w s
      = { s with queue := rest
                 workers := s.workers.set w .dead
                 trace := s.trace ++ [.die w] } := by
  rw [nextStep_queue_cons hq]; unfold nextClaim; rw [if_pos rfl]

theorem nextStep_cons {w : Nat} {s : DState} {f0 : String} {rest : List String}
    (hq : s.queue = f0 :: rest) (hf : f0 ≠ "") :
    nextStep w s
      = { s with queue := rest
                 workers := s.workers.set w (.busy f0 s.claims.length)
                 claims := s.claims ++ [(w, f0)]
                 trace := s.trace ++ [.claim w f0] } := by
  rw [nextStep_queue_cons hq]; unfold nextClaim; rw [if_neg hf]

theorem nextStep_workers_ne {w w2 : Nat} (s : DState) (hww : w ≠ w2) :
    (nextStep w s).workers[w2]? = s.workers[w2]? := by
  rcases hq : s.queue with _ | ⟨f0, rest⟩
  · rw [nextStep_nil hq]; exact List.getElem?_set_ne hww
  · by_cases hf : f0 = ""
    · subst hf; rw [nextStep_cons_bad hq]; exact List.getElem?_set_ne hww
    · rw [nextStep_cons hq hf]; exact List.getElem?_set_ne hww

theorem step_busy {conv : String → String → Except ErrInfo OutInfo}
    {cfg : Config} {s : DState} {w : Nat} {f : String} {k : Nat}
    (hw : s.workers[w]? = some (.busy f k)) :
    step conv cfg s w
      = nextStep w (progressStep w k f
          (workerHandle conv (inPath cfg f) (outPath cfg f)) s) := by
  unfold step; rw [hw]

theorem step_stale {conv : String → String → Except ErrInfo OutInfo}
    {cfg : Config} {s : DState} {w : Nat}
    (h : s.workers[w]? = none ∨ s.workers[w]? = some .fresh ∨
      s.workers[w]? = some .dead) :
    step conv cfg s w = s := by
  unfold step; rcases h with h | h | h <;> rw [h]

/-! ## The invariant holds initially -/

theorem Inv_mkInit (conv : String → String → Except ErrInfo OutInfo)
    (cfg : Config) (numWorkers : Nat) (files : List String) :
    Inv conv cfg numWorkers files (mkInit numWorkers files) := by
  refine ⟨?_, ?_, ?_, ?_, ?_, ?_, ?_, ?_, ?_, ?_, ?_, ?_, ?_, ?_, ?_, ?_, ?_⟩
  · exact List.length_replicate _ _
  · simp [mkInit]
  · rfl
  · simp [mkInit, countBusy_replicate_fresh]
  · intro w f k hb
    rw [show (mkInit numWorkers files).workers = List.replicate numWorkers .fresh from rfl,
      List.getElem?_replicate] at hb
    split at hb <;> simp_all
  · intro r hr; simp [mkInit] at hr
  · simp [mkInit]
  · intro w f k hb
    rw [show (mkInit numWorkers files).workers = List.replicate numWorkers .fresh from rfl,
      List.getElem?_replicate] at hb
    split at hb <;> simp_all
  · intro r hr; simp [mkInit] at hr
  · intro w f k hb
    rw [show (mkInit numWorkers files).workers = List.replicate numWorkers .fresh from rfl,
      List.getElem?_replicate] at hb
    split at hb <;> simp_all
  · intro r hr; simp [mkInit] at hr
  · rfl
  · rfl
  · rintro ⟨st, hst, rfl⟩
    have := List.eq_of_mem_replicate hst
    simp at this
  · rfl
  · intro w
    unfold TraceShapeAt
    rw [show (mkInit numWorkers files).workers = List.replicate numWorkers .fresh from rfl,
      List.getElem?_replicate]
    by_cases hw : w < numWorkers
    · rw [if_pos hw]; rfl
    · rw [if_neg hw]; rfl
  · intro h1
    refine ⟨by simp [mkInit], ?_⟩
    intro f k hb
    rw [show (mkInit numWorkers files).workers = List.replicate numWorkers .fresh from rfl,
      List.getElem?_replicate] at hb
    split at hb <;> simp_all

/-! ## The invariant is preserved by the initial next() of a fresh worker -/

theorem Inv_nextStep_fresh
    {conv : String → String → Except ErrInfo OutInfo} {cfg : Config}
    {numWorkers : Nat} {files : List String} {s : DState}
    (hne : "" ∉ files) (h : Inv conv cfg numWorkers files s) (w : Nat)
    (hw : s.workers[w]? = some .fresh) :
    Inv conv cfg numWorkers files (nextStep w s) := by
  have hwlt : w < s.workers.length := (List.getElem?_eq_some_iff.mp hw).1
  rcases hq : s.queue with _ | ⟨f0, rest⟩
  · rw [nextStep_nil hq]
    refine ⟨?_, ?_, ?_, ?_, ?_, ?_, ?_, ?_, ?_, ?_, ?_, ?_, ?_, ?_, ?_, ?_, ?_⟩
    · simp only [List.length_set]; exact h.wlen
    · exact h.split
    · exact h.counts
    · have hcb := countBusy_set s.workers w .fresh .dead hw
      simp [isBusyW] at hcb
      rw [hcb]; exact h.balance
    · intro w2 f k hb
      by_cases hww : w = w2
      · subst hww; rw [List.getElem?_set_self hwlt] at hb; simp at hb
      · rw [List.getElem?_set_ne hww] at hb; exact h.claimIdx w2 f k hb
    · exact h.recIdx
    · exact h.recNodup
    · intro w2 f k hb
      by_cases hww : w = w2
      · subst hww; rw [List.getElem?_set_self hwlt] at hb; simp at hb
      · rw [List.getElem?_set_ne hww] at hb; exact h.busyNotRec w2 f k hb
    · exact h.idxLt
    · intro w2 f k hb
      by_cases hww : w = w2
      · subst hww; rw [List.getElem?_set_self hwlt] at hb; simp at hb
      · rw [List.getElem?_set_ne hww] at hb; exact h.busyLt w2 f k hb
    · exact h.msgEq
    · exact h.succCnt
    · exact h.failCnt
    · intro _; exact hq
    · simp [List.filter_append, isRecordEv, h.recEvCnt]
    · intro w2
      have hts := h.traceShape w2
      unfold TraceShapeAt at hts ⊢
      by_cases hww : w = w2
      · subst hww
        rw [List.getElem?_set_self hwlt]
        rw [hw] at hts
        simp only [shapeFor] at hts ⊢
        rw [wtrace_append, hts,
          wtrace_single_eq (show evWorker (Ev.die w) = w from rfl)]
        exact ⟨[], by simp [pairTrace]⟩
      · rw [List.getElem?_set_ne hww]
        rw [wtrace_append,
          wtrace_single_ne (show evWorker (Ev.die w) ≠ w2 from hww),
          List.append_nil]
        exact hts
    · intro h1
      rw [List.length_set] at h1
      refine ⟨(h.seq1 h1).1, ?_⟩
      intro f k hb
      by_cases hw0 : w = 0
      · subst hw0; rw [List.getElem?_set_self hwlt] at hb; simp at hb
      · rw [List.getElem?_set_ne hw0] at hb
        exact (h.seq1 h1).2 f k hb
  · have hf0 : f0 ≠ "" := by
      intro hfe
      apply hne
      rw [h.split, hq, hfe]
      exact List.mem_append_right _ (List.mem_cons_self _ _)
    rw [nextStep_cons hq hf0]
    refine ⟨?_, ?_, ?_, ?_, ?_, ?_, ?_, ?_, ?_, ?_, ?_, ?_, ?_, ?_, ?_, ?_, ?_⟩
    · simp only [List.length_set]; exact h.wlen
    · have hs := h.split
      rw [hq] at hs
      simpa [List.map_append, List.append_assoc] using hs
    · exact h.counts
    · have hcb := countBusy_set s.workers w .fresh (.busy f0 s.claims.length) hw
      simp [isBusyW] at hcb
      have hbal := h.balance
      simp only [List.length_append, List.length_cons, List.length_nil]
      omega
    · intro w2 f k hb
      by_cases hww : w = w2
      · subst hww
        rw [List.getElem?_set_self hwlt] at hb
        obtain ⟨rfl, rfl⟩ : f0 = f ∧ s.claims.length = k := by simpa using hb
        exact List.getElem?_concat_length _ _
      · rw [List.getElem?_set_ne hww] at hb
        have hc := h.claimIdx w2 f k hb
        have hlt := h.busyLt w2 f k hb
        rw [List.getElem?_append_left hlt]
        exact hc
    · intro r hr
      obtain ⟨w2, hw2⟩ := h.recIdx r hr
      have hlt := h.idxLt r hr
      exact ⟨w2, by rw [List.getElem?_append_left hlt]; exact hw2⟩
    · exact h.recNodup
    · intro w2 f k hb
      by_cases hww : w = w2
      · subst hww
        rw [List.getElem?_set_self hwlt] at hb
        obtain ⟨rfl, rfl⟩ : f0 = f ∧ s.claims.length = k := by simpa using hb
        intro hmem
        obtain ⟨r, hr, hre⟩ := List.mem_map.mp hmem
        have := h.idxLt r hr
        omega
      · rw [List.getElem?_set_ne hww] at hb
        exact h.busyNotRec w2 f k hb
    · intro r hr
      have := h.idxLt r hr
      simp only [List.length_append, List.length_cons, List.length_nil]
      omega
    · intro w2 f k hb
      simp only [List.length_append, List.length_cons, List.length_nil]
      by_cases hww : w = w2
      · subst hww
        rw [List.getElem?_set_self hwlt] at hb
        obtain ⟨rfl, rfl⟩ : f0 = f ∧ s.claims.length = k := by simpa using hb
        omega
      · rw [List.getElem?_set_ne hww] at hb
        have := h.busyLt w2 f k hb
        omega
    · exact h.msgEq
    · exact h.succCnt
    · exact h.failCnt
    · rintro ⟨st, hst, rfl⟩
      exfalso
      obtain ⟨i, hi⟩ := List.mem_iff_getElem?.mp hst
      have hiw : w ≠ i := by
        intro he; subst he
        rw [List.getElem?_set_self hwlt] at hi
        simp at hi
      rw [List.getElem?_set_ne hiw] at hi
      have hqe : s.queue = [] :=
        h.deadQueue ⟨_, List.mem_iff_getElem?.mpr ⟨i, hi⟩, rfl⟩
      rw [hq] at hqe; cases hqe
    · simp [List.filter_append, isRecordEv, h.recEvCnt]
    · intro w2
      have hts := h.traceShape w2
      unfold TraceShapeAt at hts ⊢
      by_cases hww : w = w2
      · subst hww
        rw [List.getElem?_set_self hwlt]
        rw [hw] at hts
        simp only [shapeFor] at hts ⊢
        rw [wtrace_append, hts,
          wtrace_single_eq (show evWorker (Ev.claim w f0) = w from rfl)]
        exact ⟨[], by simp [pairTrace]⟩
      · rw [List.getElem?_set_ne hww]
        rw [wtrace_append,
          wtrace_single_ne (show evWorker (Ev.claim w f0) ≠ w2 from hww),
          List.append_nil]
        exact hts
    · intro h1
      rw [List.length_set] at h1
      have hpre := h.seq1 h1
      refine ⟨hpre.1, ?_⟩
      intro f k hb
      by_cases hw0 : w = 0
      · subst hw0
        rw [List.getElem?_set_self hwlt] at hb
        obtain ⟨rfl, rfl⟩ : f0 = f ∧ s.claims.length = k := by simpa using hb
        show s.claims.length = s.records.length
        obtain ⟨a, ha⟩ := List.length_eq_one.mp h1
        have haf : a = WStatus.fresh := by
          rw [ha] at hw
          simpa using hw
        have hcb : countBusy s.workers = 0 := by
          rw [ha, haf]
          simp [countBusy, List.countP_cons, isBusyW]
        have hbal := h.balance
        omega
      · rw [List.getElem?_set_ne hw0] at hb
        exact hpre.2 f k hb

/-! ## The invariant is preserved by handling one completion message -/

theorem Inv_step
    {conv : String → String → Except ErrInfo OutInfo} {cfg : Config}
    {numWorkers : Nat} {files : List String} {s : DState}
    (hne : "" ∉ files) (h : Inv conv cfg numWorkers files s) (w : Nat) :
    Inv conv cfg numWorkers files (step conv cfg s w) := by
  cases hw : s.workers[w]? with
  | none => rw [step_stale (Or.inl hw)]; exact h
  | some st =>
    cases st with
    | fresh => rw [step_stale (Or.inr (Or.inl hw))]; exact h
    | dead => rw [step_stale (Or.inr (Or.inr hw))]; exact h
    | busy f k =>
      rw [step_busy hw]
      have hwlt : w < s.workers.length := (List.getElem?_eq_some_iff.mp hw).1
      have hci := h.claimIdx w f k hw
      have hkr := h.busyNotRec w f k hw
      have hkl := h.busyLt w f k hw
      set m := workerHandle conv (inPath cfg f) (outPath cfg f) with hm
      rcases hq : s.queue with _ | ⟨f0, rest⟩
      · rw [nextStep_nil (show (progressStep w k f m s).queue = [] from hq)]
        simp only [progressStep]
        refine ⟨?_, ?_, ?_, ?_, ?_, ?_, ?_, ?_, ?_, ?_, ?_, ?_, ?_, ?_, ?_, ?_, ?_⟩
        · simp only [List.length_set]; exact h.wlen
        · exact h.split
        · have hc := h.counts
          simp only [List.length_append, List.length_cons, List.length_nil]
          cases him : isOkMsg m <;> simp [him] <;> omega
        · have hcb := countBusy_set s.workers w (.busy f k) .dead hw
          simp [isBusyW] at hcb
          have hbal := h.balance
          simp only [List.length_append, List.length_cons, List.length_nil]
          omega
        · intro w2 f2 k2 hb
          by_cases hww : w = w2
          · subst hww; rw [List.getElem?_set_self hwlt] at hb; simp at hb
          · rw [List.getElem?_set_ne hww] at hb; exact h.claimIdx w2 f2 k2 hb
        · intro r hr
          rcases List.mem_append.mp hr with hr | hr
          · exact h.recIdx r hr
          · rw [List.mem_singleton] at hr
            subst hr
            exact ⟨w, hci⟩
        · simp only [List.map_append, List.map_cons, List.map_nil]
          refine List.Nodup.append h.recNodup (List.nodup_singleton _) ?_
          intro a ha hb2
          rw [List.mem_singleton] at hb2
          subst hb2
          exact hkr ha
        · intro w2 f2 k2 hb
          by_cases hww : w = w2
          · subst hww; rw [List.getElem?_set_self hwlt] at hb; simp at hb
          · rw [List.getElem?_set_ne hww] at hb
            have hpre := h.busyNotRec w2 f2 k2 hb
            have hc2 := h.claimIdx w2 f2 k2 hb
            simp only [List.map_append, List.map_cons, List.map_nil,
              List.mem_append, List.mem_singleton]
            rintro (hmem | hke)
            · exact hpre hmem
            · subst hke
              rw [hci] at hc2
              simp at hc2
              exact hww hc2.1
        · intro r hr
          rcases List.mem_append.mp hr with hr | hr
          · exact h.idxLt r hr
          · rw [List.mem_singleton] at hr; subst hr; exact hkl
        · intro w2 f2 k2 hb
          by_cases hww : w = w2
          · subst hww; rw [List.getElem?_set_self hwlt] at hb; simp at hb
          · rw [List.getElem?_set_ne hww] at hb; exact h.busyLt w2 f2 k2 hb
        · intro r hr
          rcases List.mem_append.mp hr with hr | hr
          · exact h.msgEq r hr
          · rw [List.mem_singleton] at hr; subst hr; exact hm
        · have hsc := h.succCnt
          simp only [List.countP_append, List.countP_cons, List.countP_nil]
          cases him : isOkMsg m <;> simp [him, hsc]
        · have hfc := h.failCnt
          simp only [List.countP_append, List.countP_cons, List.countP_nil]
          cases him : isOkMsg m <;> simp [him, hfc]
        · intro _; exact hq
        · simp [List.filter_append, isRecordEv, List.length_append, h.recEvCnt]
        · intro w2
          have hts := h.traceShape w2
          unfold TraceShapeAt at hts ⊢
          by_cases hww : w = w2
          · subst hww
            rw [List.getElem?_set_self hwlt]
            rw [hw] at hts
            simp only [shapeFor] at hts ⊢
            obtain ⟨done, hdone⟩ := hts
            rw [wtrace_append, wtrace_append, hdone,
              wtrace_single_eq (show evWorker (Ev.record w f) = w from rfl),
              wtrace_single_eq (show evWorker (Ev.die w) = w from rfl)]
            refine ⟨done ++ [f], ?_⟩
            rw [pairTrace_concat]
            simp [List.append_assoc]
          · rw [List.getElem?_set_ne hww]
            rw [wtrace_append, wtrace_append,
              wtrace_single_ne (show evWorker (Ev.record w f) ≠ w2 from hww),
              wtrace_single_ne (show evWorker (Ev.die w) ≠ w2 from hww),
              List.append_nil, List.append_nil]
            exact hts
        · intro h1
          rw [List.length_set] at h1
          have hpre := h.seq1 h1
          have hw0 : w = 0 := by
            have hx := hwlt; rw [h1] at hx; omega
          subst hw0
          have hk : k = s.records.length := hpre.2 f k hw
          refine ⟨?_, ?_⟩
          · show (s.records ++ [RecEntry.mk k f m]).map RecEntry.idx
              = List.range (s.records ++ [RecEntry.mk k f m]).length
            simp only [List.map_append, List.map_cons, List.map_nil,
              List.length_append, List.length_cons, List.length_nil,
              hpre.1, hk]
            rw [List.range_succ]
          · intro f2 k2 hb
            rw [List.getElem?_set_self hwlt] at hb
            simp at hb
      · have hf0 : f0 ≠ "" := by
          intro hfe
          apply hne
          rw [h.split, hq, hfe]
          exact List.mem_append_right _ (List.mem_cons_self _ _)
        rw [nextStep_cons
          (show (progressStep w k f m s).queue = f0 :: rest from hq) hf0]
        simp only [progressStep]
        refine ⟨?_, ?_, ?_, ?_, ?_, ?_, ?_, ?_, ?_, ?_, ?_, ?_, ?_, ?_, ?_, ?_, ?_⟩
        · simp only [List.length_set]; exact h.wlen
        · have hs := h.split
          rw [hq] at hs
          simpa [List.map_append, List.append_assoc] using hs
        · have hc := h.counts
          simp only [List.length_append, List.length_cons, List.length_nil]
          cases him : isOkMsg m <;> simp [him] <;> omega
        · have hcb := countBusy_set s.workers w (.busy f k)
            (.busy f0 s.claims.length) hw
          simp [isBusyW] at hcb
          have hbal := h.balance
          simp only [List.length_append, List.length_cons, List.length_nil]
          omega
        · intro w2 f2 k2 hb
          by_cases hww : w = w2
          · subst hww
            rw [List.getElem?_set_self hwlt] at hb
            obtain ⟨rfl, rfl⟩ : f0 = f2 ∧ s.claims.length = k2 := by simpa using hb
            exact List.getElem?_concat_length _ _
          · rw [List.getElem?_set_ne hww] at hb
            have hc2 := h.claimIdx w2 f2 k2 hb
            have hlt := h.busyLt w2 f2 k2 hb
            rw [List.getElem?_append_left hlt]
            exact hc2
        · intro r hr
          rcases List.mem_append.mp hr with hr | hr
          · obtain ⟨w2, hw2⟩ := h.recIdx r hr
            have hlt := h.idxLt r hr
            exact ⟨w2, by rw [List.getElem?_append_left hlt]; exact hw2⟩
          · rw [List.mem_singleton] at hr
            subst hr
            exact ⟨w, by rw [List.getElem?_append_left hkl]; exact hci⟩
        · simp only [List.map_append, List.map_cons, List.map_nil]
          refine List.Nodup.append h.recNodup (List.nodup_singleton _) ?_
          intro a ha hb2
          rw [List.mem_singleton] at hb2
          subst hb2
          exact hkr ha
        · intro w2 f2 k2 hb
          by_cases hww : w = w2
          · subst hww
            rw [List.getElem?_set_self hwlt] at hb
            obtain ⟨rfl, rfl⟩ : f0 = f2 ∧ s.claims.length = k2 := by simpa using hb
            simp only [List.map_append, List.map_cons, List.map_nil,
              List.mem_append, List.mem_singleton]
            rintro (hmem | hke)
            · obtain ⟨r, hr, hre⟩ := List.mem_map.mp hmem
              have := h.idxLt r hr
              omega
            · omega
          · rw [List.getElem?_set_ne hww] at hb
            have hpre := h.busyNotRec w2 f2 k2 hb
            have hc2 := h.claimIdx w2 f2 k2 hb
            simp only [List.map_append, List.map_cons, List.map_nil,
              List.mem_append, List.mem_singleton]
            rintro (hmem | hke)
            · exact hpre hmem
            · subst hke
              rw [hci] at hc2
              simp at hc2
              exact hww hc2.1
        · intro r hr
          simp only [List.length_append, List.length_cons, List.length_nil]
          rcases List.mem_append.mp hr with hr | hr
          · have := h.idxLt r hr; omega
          · rw [List.mem_singleton] at hr; subst hr
            show k < s.claims.length + 1
            omega
        · intro w2 f2 k2 hb
          simp only [List.length_append, List.length_cons, List.length_nil]
          by_cases hww : w = w2
          · subst hww
            rw [List.getElem?_set_self hwlt] at hb
            obtain ⟨rfl, rfl⟩ : f0 = f2 ∧ s.claims.length = k2 := by simpa using hb
            omega
          · rw [List.getElem?_set_ne hww] at hb
            have := h.busyLt w2 f2 k2 hb
            omega
        · intro r hr
          rcases List.mem_append.mp hr with hr | hr
          · exact h.msgEq r hr
          · rw [List.mem_singleton] at hr; subst hr; exact hm
        · have hsc := h.succCnt
          simp only [List.countP_append, List.countP_cons, List.countP_nil]
          cases him : isOkMsg m <;> simp [him, hsc]
        · have hfc := h.failCnt
          simp only [List.countP_append, List.countP_cons, List.countP_nil]
          cases him : isOkMsg m <;> simp [him, hfc]
        · rintro ⟨st, hst, rfl⟩
          exfalso
          obtain ⟨i, hi⟩ := List.mem_iff_getElem?.mp hst
          have hiw : w ≠ i := by
            intro he; subst he
            rw [List.getElem?_set_self hwlt] at hi
            simp at hi
          rw [List.getElem?_set_ne hiw] at hi
          have hqe : s.queue = [] :=
            h.deadQueue ⟨_, List.mem_iff_getElem?.mpr ⟨i, hi⟩, rfl⟩
          rw [hq] at hqe; cases hqe
        · simp [List.filter_append, isRecordEv, List.length_append, h.recEvCnt]
        · intro w2
          have hts := h.traceShape w2
          unfold TraceShapeAt at hts ⊢
          by_cases hww : w = w2
          · subst hww
            rw [List.getElem?_set_self hwlt]
            rw [hw] at hts
            simp only [shapeFor] at hts ⊢
            obtain ⟨done, hdone⟩ := hts
            rw [wtrace_append, wtrace_append, hdone,
              wtrace_single_eq (show evWorker (Ev.record w f) = w from rfl),
              wtrace_single_eq (show evWorker (Ev.claim w f0) = w from rfl)]
            refine ⟨done ++ [f], ?_⟩
            rw [pairTrace_concat]
            simp [List.append_assoc]
          · rw [List.getElem?_set_ne hww]
            rw [wtrace_append, wtrace_append,
              wtrace_single_ne (show evWorker (Ev.record w f) ≠ w2 from hww),
              wtrace_single_ne (show evWorker (Ev.claim w f0) ≠ w2 from hww),
              List.append_nil, List.append_nil]
            exact hts
        · intro h1
          rw [List.length_set] at h1
          have hpre := h.seq1 h1
          have hw0 : w = 0 := by
            have hx := hwlt; rw [h1] at hx; omega
          subst hw0
          have hk : k = s.records.length := hpre.2 f k hw
          refine ⟨?_, ?_⟩
          · show (s.records ++ [RecEntry.mk k f m]).map RecEntry.idx
              = List.range (s.records ++ [RecEntry.mk k f m]).length
            simp only [List.map_append, List.map_cons, List.map_nil,
              List.length_append, List.length_cons, List.length_nil,
              hpre.1, hk]
            rw [List.range_succ]
          · intro f2 k2 hb
            rw [List.getElem?_set_self hwlt] at hb
            obtain ⟨rfl, rfl⟩ : f0 = f2 ∧ s.claims.length = k2 := by simpa using hb
            show s.claims.length = (s.records ++ [RecEntry.mk k f m]).length
            obtain ⟨a, ha⟩ := List.length_eq_one.mp h1
            have haf : a = WStatus.busy f k := by
              rw [ha] at hw
              simpa using hw
            have hcb1 : countBusy s.workers = 1 := by
              rw [ha, haf]
              simp [countBusy, List.countP_cons, isBusyW]
            have hbal := h.balance
            simp only [List.length_append, List.length_cons, List.length_nil]
            omega

/-! ## The invariant holds in every reachable state -/

theorem Inv_spawnAll
    {conv : String → String → Except ErrInfo OutInfo} {cfg : Config}
    {numWorkers : Nat} {files : List String}
    (hne : "" ∉ files) (ws : List Nat) :
    ∀ s : DState, ws.Nodup →
      (∀ w ∈ ws, s.workers[w]? = some .fresh) →
      Inv conv cfg numWorkers files s →
      Inv conv cfg numWorkers files (spawnAll ws s) := by
  induction ws with
  | nil => intro s _ _ h; exact h
  | cons w ws ih =>
    intro s hnd hfresh h
    show Inv conv cfg numWorkers files (spawnAll ws (nextStep w s))
    apply ih
    · exact hnd.of_cons
    · intro w2 hw2
      have hww2 : w ≠ w2 := by
        intro he
        exact (List.nodup_cons.mp hnd).1 (he ▸ hw2)
      rw [nextStep_workers_ne _ hww2]
      exact hfresh w2 (List.mem_cons_of_mem _ hw2)
    · exact Inv_nextStep_fresh hne h w (hfresh w (List.mem_cons_self _ _))

theorem Inv_initState
    {conv : String → String → Except ErrInfo OutInfo} {cfg : Config}
    {numWorkers : Nat} {files : List String} (hne : "" ∉ files) :
    Inv conv cfg numWorkers files (initState numWorkers files) := by
  unfold initState
  apply Inv_spawnAll hne _ _ (List.nodup_range numWorkers)
  · intro w hw
    have hwC : w < numWorkers := List.mem_range.mp hw
    show (List.replicate numWorkers WStatus.fresh)[w]? = some .fresh
    rw [List.getElem?_replicate, if_pos hwC]
  · exact Inv_mkInit conv cfg numWorkers files

theorem Inv_run
    {conv : String → String → Except ErrInfo OutInfo} {cfg : Config}
    {numWorkers : Nat} {files : List String} (hne : "" ∉ files)
    (sched : List Nat) :
    Inv conv cfg numWorkers files (run conv cfg numWorkers files sched) := by
  unfold run
  have h0 := @Inv_initState conv cfg numWorkers files hne
  generalize initState numWorkers files = s at h0
  induction sched generalizing s with
  | nil => exact h0
  | cons w sched ih => exact ih _ (Inv_step hne h0 w)

/-! ## Consequences of the invariant at a completed run -/

theorem allDead_mem_dead {s : DState} (h : allDead s)
    {numWorkers : Nat} (hlen : s.workers.length = numWorkers)
    (hpos : 1 ≤ numWorkers) :
    ∃ st ∈ s.workers, st = WStatus.dead := by
  obtain ⟨st, hst⟩ := List.exists_mem_of_ne_nil s.workers (by
    intro hnil
    rw [hnil] at hlen
    simp at hlen
    omega)
  exact ⟨st, hst, h st hst⟩

theorem run_final_counts
    {conv : String → String → Except ErrInfo OutInfo} {cfg : Config}
    {numWorkers : Nat} {files : List String} (hne : "" ∉ files)
    (sched : List Nat) (hpos : 1 ≤ numWorkers)
    (hdead : allDead (run conv cfg numWorkers files sched)) :
    (run conv cfg numWorkers files sched).success
      + (run conv cfg numWorkers files sched).failed = files.length ∧
    (run conv cfg numWorkers files sched).queue = [] := by
  set s := run conv cfg numWorkers files sched with hs
  have h : Inv conv cfg numWorkers files s := Inv_run hne sched
  have hq : s.queue = [] :=
    h.deadQueue (allDead_mem_dead hdead h.wlen hpos)
  have hcb : countBusy s.workers = 0 := countBusy_allDead hdead
  have hlen : files.length = s.claims.length := by
    have := congrArg List.length h.split
    rw [hq] at this
    simpa using this
  have hc := h.counts
  have hb := h.balance
  exact ⟨by omega, hq⟩


/-! ## PNG pipeline: reduction lemmas and invariant -/

theorem pngNext_none {w : Nat} {s : PState} (hl : s.files.getLast? = none) :
    pngNext w s = { s with workers := s.workers.set w .dead } := by
  unfold pngNext; rw [hl]

theorem pngNext_some {w : Nat} {s : PState} {f : String}
    (hl : s.files.getLast? = some f) :
    pngNext w s = pngClaim w f s := by
  unfold pngNext; rw [hl]

theorem pngClaim_good {w : Nat} {s : PState} {f : String} (hf : f ≠ "") :
    pngClaim w f s
      = { s with files := s.files.dropLast
                 workers := s.workers.set w (.busy f)
                 dispatched := s.dispatched ++ [f] } := by
  unfold pngClaim; rw [if_neg hf]

theorem pngStep_busy {o : String → Option ErrInfo} {s : PState} {w : Nat}
    {f : String} (hw : s.workers[w]? = some (.busy f)) :
    pngStep o s w = pngOnMessage (pngWorkerReply (o f)) w s := by
  unfold pngStep; rw [hw]

theorem pngStep_stale {o : String → Option ErrInfo} {s : PState} {w : Nat}
    (h : s.workers[w]? = none ∨ s.workers[w]? = some .fresh ∨
      s.workers[w]? = some .dead) :
    pngStep o s w = s := by
  unfold pngStep; rcases h with h | h | h <;> rw [h]

theorem PInv_pngNext {numWorkers : Nat} {orig : List String} {s : PState}
    (hne : "" ∉ orig) (h : PInv numWorkers orig s) (w : Nat) :
    PInv numWorkers orig (pngNext w s) := by
  rcases List.eq_nil_or_concat s.files with hnil | ⟨l2, b, hcat⟩
  · have hl : s.files.getLast? = none := by rw [hnil]; rfl
    rw [pngNext_none hl]
    refine ⟨?_, ?_, ?_⟩
    · simp only [List.length_set]; exact h.wlen
    · exact h.split
    · intro _; exact hnil
  · rw [List.concat_eq_append] at hcat
    have hl : s.files.getLast? = some b := by
      rw [hcat]; exact List.getLast?_concat _
    have hb : b ≠ "" := by
      intro he
      apply hne
      rw [h.split, hcat, he]
      exact List.mem_append_left _
        (List.mem_append_right _ (List.mem_singleton_self _))
    rw [pngNext_some hl, pngClaim_good hb]
    refine ⟨?_, ?_, ?_⟩
    · simp only [List.length_set]; exact h.wlen
    · show orig = s.files.dropLast ++ (s.dispatched ++ [b]).reverse
      rw [h.split, hcat, List.dropLast_concat]
      simp [List.append_assoc]
    · rintro ⟨st, hst, rfl⟩
      exfalso
      obtain ⟨i, hi⟩ := List.mem_iff_getElem?.mp hst
      have hiw : w ≠ i := by
        intro he; subst he
        rw [List.getElem?_set] at hi
        simp only [if_pos rfl] at hi
        split at hi <;> simp_all
      rw [List.getElem?_set_ne hiw] at hi
      have hfe : s.files = [] :=
        h.deadFiles ⟨_, List.mem_iff_getElem?.mpr ⟨i, hi⟩, rfl⟩
      rw [hcat] at hfe; simp at hfe

theorem PInv_pngMkInit (numWorkers : Nat) (files : List String) :
    PInv numWorkers files (pngMkInit numWorkers files) := by
  refine ⟨?_, ?_, ?_⟩
  · exact List.length_replicate _ _
  · simp [pngMkInit]
  · rintro ⟨st, hst, rfl⟩
    have := List.eq_of_mem_replicate hst
    simp at this

theorem PInv_pngSpawnAll {numWorkers : Nat} {orig : List String}
    (hne : "" ∉ orig) (ws : List Nat) :
    ∀ s : PState, PInv numWorkers orig s →
      PInv numWorkers orig (pngSpawnAll ws s) := by
  induction ws with
  | nil => intro s h; exact h
  | cons w ws ih =>
    intro s h
    exact ih _ (PInv_pngNext hne h w)

theorem PInv_pngStep {numWorkers : Nat} {orig : List String} {s : PState}
    (hne : "" ∉ orig) (h : PInv numWorkers orig s)
    (o : String → Option ErrInfo) (w : Nat) :
    PInv numWorkers orig (pngStep o s w) := by
  cases hw : s.workers[w]? with
  | none => rw [pngStep_stale (Or.inl hw)]; exact h
  | some st =>
    cases st with
    | fresh => rw [pngStep_stale (Or.inr (Or.inl hw))]; exact h
    | dead => rw [pngStep_stale (Or.inr (Or.inr hw))]; exact h
    | busy f =>
      rw [pngStep_busy hw]
      exact PInv_pngNext hne h w

theorem PInv_pngRun {numWorkers : Nat} {files : List String}
    (hne : "" ∉ files) (o : String → Option ErrInfo) (sched : List Nat) :
    PInv numWorkers files (pngRun o numWorkers files sched) := by
  unfold pngRun
  have h0 := PInv_pngSpawnAll hne (List.range numWorkers)
    (pngMkInit numWorkers files) (PInv_pngMkInit numWorkers files)
  generalize pngSpawnAll (List.range numWorkers) (pngMkInit numWorkers files) = s at h0
  induction sched generalizing s with
  | nil => exact h0
  | cons w sched ih => exact ih _ (PInv_pngStep hne h0 o w)

theorem pngRun_dispatched {numWorkers : Nat} {files : List String}
    (hne : "" ∉ files) (o : String → Option ErrInfo) (sched : List Nat)
    (hpos : 1 ≤ numWorkers)
    (hdead : pngAllDead (pngRun o numWorkers files sched)) :
    (pngRun o numWorkers files sched).dispatched = files.reverse := by
  set s := pngRun o numWorkers files sched with hs
  have h : PInv numWorkers files s := PInv_pngRun hne o sched
  have hmem : ∃ st ∈ s.workers, st = PW.dead := by
    obtain ⟨st, hst⟩ := List.exists_mem_of_ne_nil s.workers (by
      intro hnil
      have := h.wlen
      rw [hnil] at this
      simp at this
      omega)
    exact ⟨st, hst, hdead st hst⟩
  have hfe : s.files = [] := h.deadFiles hmem
  have hsp := h.split
  rw [hfe, List.nil_append] at hsp
  rw [hsp, List.reverse_reverse]

/-! ## Worker-count preservation (no invariant needed) -/

theorem nextStep_workers_length (w : Nat) (s : DState) :
    (nextStep w s).workers.length = s.workers.length := by
  rcases hq : s.queue with _ | ⟨f0, rest⟩
  · rw [nextStep_nil hq]; exact List.length_set _ _ _
  · by_cases hf : f0 = ""
    · subst hf; rw [nextStep_cons_bad hq]; exact List.length_set _ _ _
    · rw [nextStep_cons hq hf]; exact List.length_set _ _ _

theorem step_workers_length
    (conv : String → String → Except ErrInfo OutInfo) (cfg : Config)
    (s : DState) (w : Nat) :
    (step conv cfg s w).workers.length = s.workers.length := by
  cases hw : s.workers[w]? with
  | none => rw [step_stale (Or.inl hw)]
  | some st =>
    cases st with
    | fresh => rw [step_stale (Or.inr (Or.inl hw))]
    | dead => rw [step_stale (Or.inr (Or.inr hw))]
    | busy f k =>
      rw [step_busy hw, nextStep_workers_length]
      rfl

theorem spawnAll_workers_length (ws : List Nat) :
    ∀ s : DState, (spawnAll ws s).workers.length = s.workers.length := by
  induction ws with
  | nil => intro s; rfl
  | cons w ws ih =>
    intro s
    show (spawnAll ws (nextStep w s)).workers.length = s.workers.length
    rw [ih, nextStep_workers_length]

theorem run_workers_length
    (conv : String → String → Except ErrInfo OutInfo) (cfg : Config)
    (numWorkers : Nat) (files : List String) (sched : List Nat) :
    (run conv cfg numWorkers files sched).workers.length = numWorkers := by
  unfold run
  have hfold : ∀ (l : List Nat) (s : DState),
      (l.foldl (step conv cfg) s).workers.length = s.workers.length := by
    intro l
    induction l with
    | nil => intro s; rfl
    | cons w l ih =>
      intro s
      rw [List.foldl_cons, ih, step_workers_length]
  rw [hfold]
  unfold initState
  rw [spawnAll_workers_length]
  simp [mkInit]

/-! ## Recorded ok-messages reference exactly the claimed input paths -/

theorem filterMap_itemRef_eq
    (conv : String → String → Except ErrInfo OutInfo) (cfg : Config) :
    ∀ l : List RecEntry,
      (∀ r ∈ l, r.msg = workerHandle conv (inPath cfg r.file) (outPath cfg r.file)) →
      l.filterMap (fun r => itemRef r.msg)
        = (l.filter (fun r => isOkMsg r.msg)).map (fun r => inPath cfg r.file) := by
  intro l
  induction l with
  | nil => intro _; rfl
  | cons r l ih =>
    intro hall
    have hr := hall r (List.mem_cons_self _ _)
    have hrest := fun r2 h2 => hall r2 (List.mem_cons_of_mem _ h2)
    rw [List.filterMap_cons, List.filter_cons]
    cases hmv : r.msg with
    | res i o info =>
      have hr2 := hr
      rw [hmv] at hr2
      unfold workerHandle at hr2
      have hi : i = inPath cfg r.file := by
        rcases hc : conv (inPath cfg r.file) (outPath cfg r.file) with e2 | info2 <;>
          rw [hc] at hr2
        · simp at hr2
        · simp at hr2
          exact hr2.1
      show i :: List.filterMap (fun r => itemRef r.msg) l
        = List.map (fun r => inPath cfg r.file)
            (r :: List.filter (fun r => isOkMsg r.msg) l)
      rw [List.map_cons, hi, ih hrest]
    | fail e =>
      show List.filterMap (fun r => itemRef r.msg) l
        = List.map (fun r => inPath cfg r.file)
            (List.filter (fun r => isOkMsg r.msg) l)
      exact ih hrest

/-! ## Single-worker runs record results in enqueue order -/

theorem run_single_worker_order
    {conv : String → String → Except ErrInfo OutInfo} {cfg : Config}
    {files : List String} {sched : List Nat} (hne : "" ∉ files)
    (hdead : allDead (run conv cfg 1 files sched)) :
    (run conv cfg 1 files sched).records.map RecEntry.file = files := by
  set s := run conv cfg 1 files sched with hs
  have h : Inv conv cfg 1 files s := Inv_run hne sched
  have hq : s.queue = [] :=
    h.deadQueue (allDead_mem_dead hdead h.wlen (by omega))
  have hcb : countBusy s.workers = 0 := countBusy_allDead hdead
  have hbal := h.balance
  have hmap := (h.seq1 h.wlen).1
  have hsp := h.split
  rw [hq, List.append_nil] at hsp
  have hlen : s.records.length = s.claims.length := by omega
  apply List.ext_getElem?
  intro n
  by_cases hn : n < s.records.length
  · have hr : s.records[n]? = some s.records[n] := List.getElem?_eq_getElem hn
    have hmem : s.records[n] ∈ s.records := List.getElem_mem hn
    have hidx : s.records[n].idx = n := by
      have h1 : (s.records.map RecEntry.idx)[n]? = some (s.records[n].idx) := by
        rw [List.getElem?_map, hr]
        rfl
      rw [hmap, List.getElem?_range hn] at h1
      exact (Option.some_inj.mp h1).symm
    obtain ⟨w2, hw2⟩ := h.recIdx _ hmem
    rw [hidx] at hw2
    rw [List.getElem?_map, hr]
    rw [hsp, List.getElem?_map, hw2]
    rfl
  · push_neg at hn
    rw [List.getElem?_eq_none (by rw [List.length_map]; omega),
      List.getElem?_eq_none (by rw [hsp, List.length_map]; omega)]

/-! ## PNG pipeline ignores per-item outcomes entirely -/

theorem pngStep_outcome_irrel (o1 o2 : String → Option ErrInfo) :
    pngStep o1 = pngStep o2 := by
  funext s w
  unfold pngStep
  cases h : s.workers[w]? with
  | none => rfl
  | some st => cases st <;> rfl

theorem pngRun_outcome_irrel (o1 o2 : String → Option ErrInfo)
    (numWorkers : Nat) (files : List String) (sched : List Nat) :
    pngRun o1 numWorkers files sched = pngRun o2 numWorkers files sched := by
  unfold pngRun
  rw [pngStep_outcome_irrel o1 o2]

/-! ## Claim theorems -/

/-- C1 counterexample: with the unclamped CPU count 0 (line 41, possible
since `os.cpus()` can report no CPUs) the fork loop spawns no worker, so
on one enqueued item "all workers have exited" holds vacuously while
`success + failed = 0 ≠ 1` and the pending queue still holds the item —
the original claim's completion clause is false at this input. -/
theorem C1_counterexample :
    allDead (run convOk cfgEx (cores 0) ["a.svg"] []) ∧
    (run convOk cfgEx (cores 0) ["a.svg"] []).success
      + (run convOk cfgEx (cores 0) ["a.svg"] []).failed = 0 ∧
    (run convOk cfgEx (cores 0) ["a.svg"] []).queue = ["a.svg"] ∧
    ¬((run convOk cfgEx (cores 0) ["a.svg"] []).success
        + (run convOk cfgEx (cores 0) ["a.svg"] []).failed = 1 ∧
      (run convOk cfgEx (cores 0) ["a.svg"] []).queue = []) := by
  decide

/-- C1 amended: at every point during every run
`success + failed ≤ total` holds (every reachable state is `run` of some
schedule, and every prefix of a schedule is a schedule), and — provided
at least one worker was spawned — when all workers have exited,
`success + failed = N` and the pending queue is empty.  (With zero
workers, possible because `os.cpus().length` is unclamped, all-exited
holds vacuously while nothing is processed and the queue stays full.) -/
theorem C1_amended_counts_invariant
    (conv : String → String → Except ErrInfo OutInfo) (cfg : Config)
    (numWorkers : Nat) (files : List String) (sched : List Nat)
    (hne : "" ∉ files) :
    (run conv cfg numWorkers files sched).success
      + (run conv cfg numWorkers files sched).failed ≤ files.length ∧
    (1 ≤ numWorkers → allDead (run conv cfg numWorkers files sched) →
      (run conv cfg numWorkers files sched).success
        + (run conv cfg numWorkers files sched).failed = files.length ∧
      (run conv cfg numWorkers files sched).queue = []) := by
  have h : Inv conv cfg numWorkers files (run conv cfg numWorkers files sched) :=
    Inv_run hne sched
  have hc := h.counts
  have hb := h.balance
  have hlenf : files.length
      = (run conv cfg numWorkers files sched).claims.length
        + (run conv cfg numWorkers files sched).queue.length := by
    have := congrArg List.length h.split
    simpa using this
  exact ⟨by omega, fun hpos hdead => run_final_counts hne sched hpos hdead⟩

/-- Witness for the amended C1 at a concrete one-file, one-worker run. -/
theorem C1_witness :
    ("" ∉ (["a.svg"] : List String)) ∧
    ((run convOk cfgEx 1 ["a.svg"] [0]).success
        + (run convOk cfgEx 1 ["a.svg"] [0]).failed ≤ 1 ∧
      (1 ≤ 1 → allDead (run convOk cfgEx 1 ["a.svg"] [0]) →
        (run convOk cfgEx 1 ["a.svg"] [0]).success
          + (run convOk cfgEx 1 ["a.svg"] [0]).failed = 1 ∧
        (run convOk cfgEx 1 ["a.svg"] [0]).queue = [])) :=
  ⟨by decide,
    C1_amended_counts_invariant convOk cfgEx 1 ["a.svg"] [0] (by decide)⟩

/-- C2: `shift()` runs serialized on the main thread, so distinct
claimNext invocations return distinct items (the claim history has no
duplicate file), and no two recorded results reference the same WorkItem
(the recorded item references, which exist only on success messages, are
pairwise distinct input paths). -/
theorem C2_at_most_once
    (conv : String → String → Except ErrInfo OutInfo) (cfg : Config)
    (numWorkers : Nat) (files : List String) (sched : List Nat)
    (hne : "" ∉ files) (hnd : files.Nodup) :
    ((run conv cfg numWorkers files sched).claims.map Prod.snd).Nodup ∧
    ((run conv cfg numWorkers files sched).records.filterMap
      (fun r => itemRef r.msg)).Nodup := by
  have h : Inv conv cfg numWorkers files (run conv cfg numWorkers files sched) :=
    Inv_run hne sched
  set s := run conv cfg numWorkers files sched with hs
  have hcf : (s.claims.map Prod.snd).Nodup := by
    rw [h.split] at hnd
    exact hnd.of_append_left
  refine ⟨hcf, ?_⟩
  have hrnd : s.records.Nodup := List.Nodup.of_map _ h.recNodup
  have hinj := List.inj_on_of_nodup_map h.recNodup
  have hfiles : (s.records.map RecEntry.file).Nodup := by
    refine List.Nodup.map_on ?_ hrnd
    intro x hx y hy hf
    obtain ⟨wx, hwx⟩ := h.recIdx x hx
    obtain ⟨wy, hwy⟩ := h.recIdx y hy
    have hgx : (s.claims.map Prod.snd)[x.idx]? = some x.file := by
      rw [List.getElem?_map, hwx]
      rfl
    have hgy : (s.claims.map Prod.snd)[y.idx]? = some y.file := by
      rw [List.getElem?_map, hwy]
      rfl
    rw [hf] at hgx
    have hxy : x.idx = y.idx := nodup_getElem?_inj hcf hgx hgy
    exact hinj hx hy hxy
  rw [filterMap_itemRef_eq conv cfg s.records h.msgEq]
  have hsub : ((s.records.filter (fun r => isOkMsg r.msg)).map RecEntry.file).Nodup :=
    List.Nodup.sublist (List.Sublist.map _ (List.filter_sublist _)) hfiles
  have hmm : (s.records.filter (fun r => isOkMsg r.msg)).map
        (fun r => inPath cfg r.file)
      = ((s.records.filter (fun r => isOkMsg r.msg)).map RecEntry.file).map
          (pjoin cfg.inputDir) := by
    rw [List.map_map]
    rfl
  rw [hmm]
  exact List.Nodup.map (fun a b hab => pjoin_inj _ hab) hsub

/-- Witness for C2 at a concrete two-file, one-worker run. -/
theorem C2_witness :
    ("" ∉ (["a.svg", "b.svg"] : List String)) ∧
    (["a.svg", "b.svg"] : List String).Nodup ∧
    (((run convOk cfgEx 1 ["a.svg", "b.svg"] [0, 0]).claims.map Prod.snd).Nodup ∧
      ((run convOk cfgEx 1 ["a.svg", "b.svg"] [0, 0]).records.filterMap
        (fun r => itemRef r.msg)).Nodup) :=
  ⟨by decide, by decide,
    C2_at_most_once convOk cfgEx 1 ["a.svg", "b.svg"] [0, 0] (by decide) (by decide)⟩

/-- C3 counterexample: with the unclamped CPU count 0, a run whose
conversion routine (`convBad`) fails on every input still "completes" —
all workers have vacuously exited — yet `failed = 0 ≠ 1 = N`: the
original claim's `failed == N` clause is false at this input. -/
theorem C3_counterexample :
    allDead (run convBad cfgEx (cores 0) ["a.svg"] []) ∧
    (run convBad cfgEx (cores 0) ["a.svg"] []).success = 0 ∧
    (run convBad cfgEx (cores 0) ["a.svg"] []).failed = 0 ∧
    ¬(run convBad cfgEx (cores 0) ["a.svg"] []).failed = 1 := by
  decide

/-- C3 amended: a conversion routine failing on every input is caught by
the worker handler and recorded without terminating the worker loop or
the pool: in every completed run `success = 0` and every recorded message
is a fail message, and — provided at least one worker was spawned —
`failed = N`.  (With zero workers the run completes vacuously with
`failed = 0` and nothing processed.)  Totality of `step` and
`workerHandle` models that no exception escapes the supervisor. -/
theorem C3_amended_failures_recorded
    (conv : String → String → Except ErrInfo OutInfo) (cfg : Config)
    (numWorkers : Nat) (files : List String) (sched : List Nat)
    (hne : "" ∉ files)
    (hfail : ∀ i o, ∃ e, conv i o = Except.error e)
    (hdead : allDead (run conv cfg numWorkers files sched)) :
    (run conv cfg numWorkers files sched).success = 0 ∧
    (∀ r ∈ (run conv cfg numWorkers files sched).records,
      ∃ e, r.msg = Msg.fail e) ∧
    (1 ≤ numWorkers →
      (run conv cfg numWorkers files sched).failed = files.length) := by
  have h : Inv conv cfg numWorkers files (run conv cfg numWorkers files sched) :=
    Inv_run hne sched
  set s := run conv cfg numWorkers files sched with hs
  have hall : ∀ r ∈ s.records, ∃ e, r.msg = Msg.fail e := by
    intro r hr
    obtain ⟨e, he⟩ := hfail (inPath cfg r.file) (outPath cfg r.file)
    refine ⟨e, ?_⟩
    rw [h.msgEq r hr]
    unfold workerHandle
    rw [he]
  have hsucc : s.success = 0 := by
    rw [h.succCnt, List.countP_eq_zero]
    intro r hr
    obtain ⟨e, he⟩ := hall r hr
    rw [he]
    simp [isOkMsg]
  refine ⟨hsucc, hall, ?_⟩
  intro hpos
  have hcnt := (run_final_counts hne sched hpos hdead).1
  rw [← hs] at hcnt
  omega

/-- Witness for the amended C3 with the always-failing conversion
routine on a one-worker run. -/
theorem C3_witness :
    (∀ i o, ∃ e, convBad i o = Except.error e) ∧
    allDead (run convBad cfgEx 1 ["a.svg"] [0]) ∧
    ((run convBad cfgEx 1 ["a.svg"] [0]).success = 0 ∧
      (∀ r ∈ (run convBad cfgEx 1 ["a.svg"] [0]).records,
        ∃ e, r.msg = Msg.fail e) ∧
      (1 ≤ 1 → (run convBad cfgEx 1 ["a.svg"] [0]).failed = 1)) :=
  ⟨fun _ _ => ⟨"boom", rfl⟩, by decide,
    C3_amended_failures_recorded convBad cfgEx 1 ["a.svg"] [0] (by decide)
      (fun _ _ => ⟨"boom", rfl⟩) (by decide)⟩

/-- C4: the code contradicts its own `Result` typedef at the failing
input: with a routine failing exactly on input path "./svg/a.svg" the
counts come out right (1 failure, N-1 successes, and the ghost provenance
shows the failure was produced for "a.svg"), but the recorded failure
message carries no item reference at all, because the worker's catch
handler posts `{err}` without spreading `args` (build_webp.mjs line 185),
while success messages do reference their input. -/
theorem C4_failure_drops_item_reference :
    ((run convBad cfgEx 1 ["a.svg"] [0]).failed = 1 ∧
      (run convBad cfgEx 1 ["a.svg"] [0]).success = 0 ∧
      (run convBad cfgEx 1 ["a.svg"] [0]).records.map
        (fun r => (r.file, itemRef r.msg)) = [("a.svg", none)]) ∧
    ((run (convBadOn "./svg/a.svg") cfgEx 1 ["a.svg", "b.svg"] [0, 0]).failed = 1 ∧
      (run (convBadOn "./svg/a.svg") cfgEx 1 ["a.svg", "b.svg"] [0, 0]).success = 1 ∧
      (run (convBadOn "./svg/a.svg") cfgEx 1 ["a.svg", "b.svg"] [0, 0]).records.map
        (fun r => (r.file, itemRef r.msg))
        = [("a.svg", none), ("b.svg", some "./svg/b.svg")]) := by
  decide

/-- C5 counterexample: `cores = os.cpus().length` is used without any
minimum-1 clamp, so when the reported CPU count is 0 the fork loop spawns
0 workers, contradicting "C ... is at least 1". -/
theorem C5_counterexample :
    (run convOk cfgEx (cores 0) ["a.svg"] []).workers.length = 0 ∧
    ¬ 1 ≤ (run convOk cfgEx (cores 0) ["a.svg"] []).workers.length := by
  decide

/-- C5 amended: the supervisor spawns exactly `cores cpus` workers (the
reported CPU count as-is, with no minimum), and completion — `Promise.all`
resolving, i.e. every fork promise resolved on worker exit — implies every
one of the `cores cpus` workers is dead. -/
theorem C5_amended_spawn_count
    (conv : String → String → Except ErrInfo OutInfo) (cfg : Config)
    (cpus : Nat) (files : List String) (sched : List Nat) :
    (run conv cfg (cores cpus) files sched).workers.length = cores cpus ∧
    (allDead (run conv cfg (cores cpus) files sched) →
      ∀ w, w < cores cpus →
        (run conv cfg (cores cpus) files sched).workers[w]?
          = some WStatus.dead) := by
  have hlen := run_workers_length conv cfg (cores cpus) files sched
  refine ⟨hlen, ?_⟩
  intro hdead w hw
  have hwlt : w < (run conv cfg (cores cpus) files sched).workers.length := by
    rw [hlen]
    exact hw
  rw [List.getElem?_eq_getElem hwlt, hdead _ (List.getElem_mem hwlt)]

/-- Witness for the amended C5 at one CPU. -/
theorem C5_witness :
    allDead (run convOk cfgEx (cores 1) ["a.svg"] [0]) ∧
    (run convOk cfgEx (cores 1) ["a.svg"] [0]).workers.length = cores 1 ∧
    (run convOk cfgEx (cores 1) ["a.svg"] [0]).workers[0]? = some WStatus.dead :=
  ⟨by decide, (C5_amended_spawn_count convOk cfgEx 1 ["a.svg"] [0]).1,
    (C5_amended_spawn_count convOk cfgEx 1 ["a.svg"] [0]).2 (by decide) 0
      (by decide)⟩

/-- C6 counterexample: the file named exactly ".svg" passes the input
filter, but Node's `basename(name, ext)` does not strip an extension equal
to the whole name, so the code produces ".svg.webp" where the spec mapping
rule (input extension removed, target extension appended) produces
".webp". -/
theorem C6_counterexample :
    isSvgFile ".svg" = true ∧
    outPath cfgEx ".svg" = "./webp/.svg.webp" ∧
    specOutputPath cfgEx ".svg" = "./webp/.webp" ∧
    outPath cfgEx ".svg" ≠ specOutputPath cfgEx ".svg" := by
  decide

/-- C6 amended: the pending queue is pre-loaded with exactly the listing
entries ending in ".svg", and for every claimed file other than one named
exactly ".svg" the output path is the target directory joined with the
base name, input extension removed, target extension appended. -/
theorem C6_amended_queue_and_paths
    (listing : List String) (numWorkers : Nat) (cfg : Config) (f : String)
    (hf : isSvgFile f = true) (hdot : f ≠ ".svg") :
    (mkInit numWorkers (inputFilesOf listing)).queue
      = listing.filter (fun g => jsEndsWith g ".svg") ∧
    outPath cfg f = specOutputPath cfg f := by
  constructor
  · rfl
  · unfold outPath specOutputPath nodeBasename
    rw [if_pos ⟨hf, hdot⟩]

/-- Witness for the amended C6. -/
theorem C6_witness :
    isSvgFile "a.svg" = true ∧ ("a.svg" : String) ≠ ".svg" ∧
    ((mkInit 1 (inputFilesOf ["a.svg", "note.txt"])).queue
        = (["a.svg", "note.txt"] : List String).filter (fun g => jsEndsWith g ".svg") ∧
      outPath cfgEx "a.svg" = specOutputPath cfgEx "a.svg") :=
  ⟨by decide, by decide,
    C6_amended_queue_and_paths ["a.svg", "note.txt"] 1 cfgEx "a.svg"
      (by decide) (by decide)⟩

/-- C7 counterexample: with `OUTPUT_SIZE="abc"` the configuration phase
succeeds — `Number` just yields NaN (`outputSize = none`) and no
validation exists — and the fork loop spawns all `cores` workers, so an
invalid output size does not fail before worker spawn. -/
theorem C7_counterexample :
    parseConfig jsonNone envBadSize
      = Except.ok
          { inputDir := "./svg", outputFormat := "webp",
            outputDir := "./webp", outputExt := "webp", outputSize := none,
            outputOptions := defaultOutputOptions } ∧
    mainWorkers jsonNone envBadSize 4 = 4 ∧
    1 ≤ mainWorkers jsonNone envBadSize 4 :=
  ⟨by rfl, by decide, by decide⟩

/-- C7 amended: a malformed `OUTPUT_OPTIONS` payload makes the run fail
before any worker is spawned; an invalid `OUTPUT_SIZE` is not validated at
all — with no options payload the fork loop spawns `cores cpus` workers
whatever the size string was. -/
theorem C7_amended_config_failure
    (jp : String → Option (List (String × String))) (env : Env) (cpus : Nat) :
    (∀ s, env.OUTPUT_OPTIONS = some s → jp s = none →
      parseConfig jp env = Except.error "Invalid output options" ∧
      mainWorkers jp env cpus = 0) ∧
    (env.OUTPUT_OPTIONS = none → mainWorkers jp env cpus = cores cpus) := by
  constructor
  · intro s hs hjp
    have hpc : parseConfig jp env = Except.error "Invalid output options" := by
      simp only [parseConfig, hs, hjp]
    refine ⟨hpc, ?_⟩
    unfold mainWorkers
    rw [hpc]
  · intro hnone
    unfold mainWorkers
    simp only [parseConfig, hnone]

/-- Witness for the amended C7. -/
theorem C7_witness :
    parseConfig jsonNone ⟨none, none, none, none, some "abc", some "nope"⟩
      = Except.error "Invalid output options" ∧
    mainWorkers jsonNone ⟨none, none, none, none, some "abc", some "nope"⟩ 4 = 0 ∧
    mainWorkers jsonNone envBadSize 4 = cores 4 :=
  ⟨((C7_amended_config_failure jsonNone
        ⟨none, none, none, none, some "abc", some "nope"⟩ 4).1 "nope" rfl rfl).1,
    ((C7_amended_config_failure jsonNone
        ⟨none, none, none, none, some "abc", some "nope"⟩ 4).1 "nope" rfl rfl).2,
    (C7_amended_config_failure jsonNone envBadSize 4).2 rfl⟩

/-- C8 counterexample: the PNG pipeline (convert/index.mjs) claims with
`files.pop()` from the tail, so a complete single-worker run dispatches
and processes the items in reverse enqueue order, refuting "results are
produced in the same order items were enqueued" for that pipeline. -/
theorem C8_counterexample :
    pngAllDead (pngRun oNone 1 ["a.svg", "b.svg"] [0, 0]) ∧
    (pngRun oNone 1 ["a.svg", "b.svg"] [0, 0]).dispatched = ["b.svg", "a.svg"] ∧
    (pngRun oNone 1 ["a.svg", "b.svg"] [0, 0]).dispatched ≠ ["a.svg", "b.svg"] := by
  decide

/-- C8 amended: in build_webp.mjs (which claims with `shift()` from the
head) a complete single-worker run records results exactly in enqueue
order; in the PNG pipeline (which claims with `pop()` from the tail) a
complete run dispatches the items exactly in reverse enqueue order. -/
theorem C8_amended_single_worker_order :
    (∀ (conv : String → String → Except ErrInfo OutInfo) (cfg : Config)
        (files : List String) (sched : List Nat),
      "" ∉ files → allDead (run conv cfg 1 files sched) →
      (run conv cfg 1 files sched).records.map RecEntry.file = files) ∧
    (∀ (o : String → Option ErrInfo) (numWorkers : Nat)
        (files : List String) (sched : List Nat),
      "" ∉ files → 1 ≤ numWorkers →
      pngAllDead (pngRun o numWorkers files sched) →
      (pngRun o numWorkers files sched).dispatched = files.reverse) :=
  ⟨fun _ _ _ _ hne hdead => run_single_worker_order hne hdead,
    fun o _ _ sched hne hpos hdead => pngRun_dispatched hne o sched hpos hdead⟩

/-- Witness for the amended C8 on a concrete two-file run of each
pipeline. -/
theorem C8_witness :
    (run convOk cfgEx 1 ["a.svg", "b.svg"] [0, 0]).records.map RecEntry.file
      = ["a.svg", "b.svg"] ∧
    (pngRun oNone 1 ["a.svg", "b.svg"] [0, 0]).dispatched
      = (["a.svg", "b.svg"] : List String).reverse :=
  ⟨C8_amended_single_worker_order.1 convOk cfgEx ["a.svg", "b.svg"] [0, 0]
      (by decide) (by decide),
    C8_amended_single_worker_order.2 oNone 1 ["a.svg", "b.svg"] [0, 0]
      (by decide) (by decide) (by decide)⟩

/-- C9: within every single worker's loop the causal order
claim/convert/record/next-claim is respected — each worker's event sublog
is an alternation of claim and record events, optionally ending in an
unanswered claim or in its termination event; each processed item causes
exactly one record event and hence one progress render (the record-event
count equals `success + failed`); and no ordering holds between items of
different workers: two valid schedules of the same two-worker run produce
the two different global record orders. -/
theorem C9_worker_loop_causality
    (conv : String → String → Except ErrInfo OutInfo) (cfg : Config)
    (numWorkers : Nat) (files : List String) (sched : List Nat)
    (hne : "" ∉ files) :
    (∀ w, AltShape w (wtrace (run conv cfg numWorkers files sched).trace w)) ∧
    ((run conv cfg numWorkers files sched).trace.filter isRecordEv).length
      = (run conv cfg numWorkers files sched).success
        + (run conv cfg numWorkers files sched).failed ∧
    ((run convOk cfgEx 2 ["a.svg", "b.svg"] [0, 1]).records.map RecEntry.file
        = ["a.svg", "b.svg"] ∧
      (run convOk cfgEx 2 ["a.svg", "b.svg"] [1, 0]).records.map RecEntry.file
        = ["b.svg", "a.svg"]) := by
  have h : Inv conv cfg numWorkers files (run conv cfg numWorkers files sched) :=
    Inv_run hne sched
  set s := run conv cfg numWorkers files sched with hs
  refine ⟨?_, ?_, by decide, by decide⟩
  · intro w
    have hts := h.traceShape w
    unfold TraceShapeAt at hts
    cases hsw : s.workers[w]? with
    | none =>
      rw [hsw] at hts
      simp only [shapeFor] at hts
      exact Or.inl ⟨[], by rw [hts]; rfl⟩
    | some st =>
      cases st with
      | fresh =>
        rw [hsw] at hts
        simp only [shapeFor] at hts
        exact Or.inl ⟨[], by rw [hts]; rfl⟩
      | busy f k =>
        rw [hsw] at hts
        simp only [shapeFor] at hts
        obtain ⟨done, hdone⟩ := hts
        exact Or.inr (Or.inl ⟨done, f, hdone⟩)
      | dead =>
        rw [hsw] at hts
        simp only [shapeFor] at hts
        obtain ⟨done, hdone⟩ := hts
        exact Or.inr (Or.inr ⟨done, hdone⟩)
  · rw [h.recEvCnt, h.counts]

/-- Witness for C9 at a concrete run. -/
theorem C9_witness :
    (∀ w, AltShape w (wtrace (run convOk cfgEx 1 ["a.svg"] [0]).trace w)) ∧
    ((run convOk cfgEx 1 ["a.svg"] [0]).trace.filter isRecordEv).length
      = (run convOk cfgEx 1 ["a.svg"] [0]).success
        + (run convOk cfgEx 1 ["a.svg"] [0]).failed :=
  ⟨(C9_worker_loop_causality convOk cfgEx 1 ["a.svg"] [0] (by decide)).1,
    (C9_worker_loop_causality convOk cfgEx 1 ["a.svg"] [0] (by decide)).2.1⟩

/-- C10: the PNG worker's exec callback ignores its error argument and
always acknowledges with the constant `true`, and the convert/index.mjs
main loop ignores message contents, so the whole run state is independent
of per-item conversion outcomes — a per-item failure is never detected,
recorded, or reported by that pipeline (the state has no failure record by
construction, and an all-failing run is indistinguishable from an
all-succeeding one). -/
theorem C10_png_error_ignored (o1 o2 : String → Option ErrInfo)
    (numWorkers : Nat) (files : List String) (sched : List Nat) :
    (∀ e, pngWorkerReply e = true) ∧
    pngRun o1 numWorkers files sched = pngRun o2 numWorkers files sched ∧
    pngRun oFail numWorkers files sched = pngRun oNone numWorkers files sched :=
  ⟨fun _ => rfl, pngRun_outcome_irrel o1 o2 numWorkers files sched,
    pngRun_outcome_irrel oFail oNone numWorkers files sched⟩

end Emojis
